import Mathlib

/-!
Verification of the boring-planner core (`src/core/boring_planner.py`) of the
`quanteng/boring` repository.

The embedding models the planner's geometry with exact rational coordinates
(the code computes with IEEE-754 float64).  Shapely predicates on the
axis-aligned rectangular polygons used throughout are embedded directly:
`within` is strict interior containment, and the boundary projection
`boundary.interpolate(boundary.project(p))` is the first closest point found
while scanning the polygon's exterior ring segment by segment (ties keep the
earlier segment, matching GEOS).  Distance comparisons from the code
(`min(distances)`, `np.argmax`) are embedded via squared distances: for
nonnegative reals, `sqrt` is strictly monotone, so comparisons of distances
and of squared distances agree, and the first maximum of the code's
`1.0 - min_dist / radius` (radius > 0) is the first minimum of the squared
minimum distance.
-/

namespace Boring

set_option maxRecDepth 200000

/-- A planar point; coordinates are exact rationals standing for the code's
float64 coordinates. -/
structure Pt where
  x : ℚ
  y : ℚ
deriving DecidableEq, Repr

/-- Squared Euclidean distance between two points.  The code's
`Point.distance` is its square root; all uses in the code are comparisons,
which squared distances decide identically. -/
def sqDist (p q : Pt) : ℚ := (p.x - q.x) ^ 2 + (p.y - q.y) ^ 2

/-- An axis-aligned rectangular polygon with corners `(x0, y0)` and
`(x1, y1)` (`x0 < x1`, `y0 < y1` in all uses); this is the polygon shape the
claims instantiate for zones, key areas and buildings. -/
structure Rect where
  x0 : ℚ
  y0 : ℚ
  x1 : ℚ
  y1 : ℚ
deriving DecidableEq, Repr

/-- shapely `point.within(polygon)` for a rectangle: strict interior
containment (a point on the boundary is not `within`). -/
def Rect.withinPt (r : Rect) (p : Pt) : Bool :=
  decide (r.x0 < p.x ∧ p.x < r.x1 ∧ r.y0 < p.y ∧ p.y < r.y1)

/-- The exterior ring of a rectangle as a list of segments, in the vertex
order produced by `shapely.geometry.box(x0, y0, x1, y1)`:
`(x1,y0) → (x1,y1) → (x0,y1) → (x0,y0) → (x1,y0)`. -/
def Rect.ring (r : Rect) : List (Pt × Pt) :=
  [ (⟨r.x1, r.y0⟩, ⟨r.x1, r.y1⟩)
  , (⟨r.x1, r.y1⟩, ⟨r.x0, r.y1⟩)
  , (⟨r.x0, r.y1⟩, ⟨r.x0, r.y0⟩)
  , (⟨r.x0, r.y0⟩, ⟨r.x1, r.y0⟩) ]

/-- Closest point to `p` on the segment from `a` to `b` (orthogonal
projection clamped to the segment). -/
def closestOnSeg (a b p : Pt) : Pt :=
  let dx := b.x - a.x
  let dy := b.y - a.y
  let len2 := dx ^ 2 + dy ^ 2
  if len2 = 0 then a
  else
    let t := max 0 (min 1 (((p.x - a.x) * dx + (p.y - a.y) * dy) / len2))
    ⟨a.x + t * dx, a.y + t * dy⟩

/-- `building.boundary.interpolate(building.boundary.project(p))`: the
nearest point to `p` on the rectangle's ring; on exact ties the point with
the smaller arc-length parameter (the earlier segment) wins, as in GEOS. -/
def Rect.nearestOnBoundary (r : Rect) (p : Pt) : Pt :=
  r.ring.foldl
    (fun best seg =>
      let c := closestOnSeg seg.1 seg.2 p
      if sqDist c p < sqDist best p then c else best)
    ⟨r.x1, r.y0⟩

/-- A grid point produced by `create_grid`: geometry, lattice indices, and a
unique identifier (the code uses `uuid4` strings; the model numbers the
points by their position in the generated order). -/
structure GridPoint where
  geom : Pt
  row : ℤ
  col : ℤ
  id : ℕ
deriving DecidableEq, Repr

/-- `np.arange lo hi step` for the planner's positive `step`: the values
`lo + i * step` for `0 ≤ i` while the value stays strictly below `hi`. -/
def arange (lo hi step : ℚ) : List ℚ :=
  (List.range (((hi - lo) / step).ceil.toNat)).map (fun i => lo + (i : ℚ) * step)

/-- `boundary_gdf.total_bounds`: `(minx, miny, maxx, maxy)` over the
rectangles.  (geopandas yields NaN bounds for an empty frame; the model is
never used on an empty boundary.) -/
def totalBounds : List Rect → ℚ × ℚ × ℚ × ℚ
  | [] => (0, 0, 0, 0)
  | r :: rs =>
      rs.foldl
        (fun b s => (min b.1 s.x0, min b.2.1 s.y0, max b.2.2.1 s.x1, max b.2.2.2 s.y1))
        (r.x0, r.y0, r.x1, r.y1)

/-- `BoringPlanner.create_grid`: lattice points over the bounding box
(`x` outer loop, `y` inner loop), kept only when strictly within some
boundary region (`gpd.sjoin(..., how='inner', op='within')`; the claims use
a single region, so the join is a filter), then given integer lattice
indices `(row, col)` relative to `(minx, miny)` and sequential fresh ids. -/
def create_grid (boundary : List Rect) (grid_size : ℚ) : List GridPoint :=
  let b := totalBounds boundary
  let minx := b.1
  let miny := b.2.1
  let xs := arange minx b.2.2.1 grid_size
  let ys := arange miny b.2.2.2 grid_size
  let pts := xs.flatMap (fun x => ys.map (fun y => (⟨x, y⟩ : Pt)))
  let inside := pts.filter (fun p => boundary.any (fun reg => reg.withinPt p))
  inside.enum.map (fun ip =>
    { geom := ip.2
      row := ((ip.2.y - miny) / grid_size).floor
      col := ((ip.2.x - minx) / grid_size).floor
      id := ip.1 })

/-- The `params` dictionary of `plan_boring` with the code's `.get` default
values. -/
structure Params where
  offset_x : ℤ := 0
  offset_y : ℤ := 0
  boring_step : ℤ := 2
  boring_step_zdqy : ℤ := 1
  wboring_step : ℤ := 8
  wboring_step_zdqy : ℤ := 4
deriving DecidableEq, Repr

/-- A survey zone: its `DCFQ` name and its polygon. -/
structure Zone where
  name : String
  area : Rect
deriving DecidableEq, Repr

/-- The `type` tag of an output point. -/
inductive BType
  | BORING
  | WBORING
deriving DecidableEq, Repr

/-- An output point of `plan_boring` (one row of the result GeoDataFrame). -/
structure BoringPoint where
  id : ℕ
  geom : Pt
  row : ℤ
  col : ℤ
  is_key_area : Bool
  zone : String
  type : BType
  code : String
  moved : Bool
  original_geom : Pt
deriving DecidableEq, Repr

/-- `BoringPlanner._check_grid_condition` for one row: the step-congruence
test, with the denser `step_zdqy` inside key areas.  (Python `%` and `Int`
`%` agree on `== 0`: both mean divisibility.) -/
def check_grid_condition (is_key : Bool) (row col ox oy step step_zdqy : ℤ) : Bool :=
  if is_key then
    ((col - ox) % step_zdqy == 0) && ((row - oy) % step_zdqy == 0)
  else
    ((col - ox) % step == 0) && ((row - oy) % step == 0)

/-- The zone a point falls strictly within
(`gpd.sjoin(..., how='left', op='within')` against the zones): `none` when
the point is outside every zone.  The claims assume disjoint zones; on
overlapping zones the join would duplicate the row, and the model keeps the
first match. -/
def zoneOf (zones : List Zone) (p : Pt) : Option String :=
  (zones.find? (fun z => z.area.withinPt p)).map (fun z => z.name)

/-- One logical row of the joined frame inside `plan_boring`. -/
structure Row where
  gp : GridPoint
  is_key_area : Bool
  dcfq : Option String
  is_boring : Bool
  is_wboring : Bool
deriving DecidableEq, Repr

/-- Build the joined row for one grid point: key-area flag, zone join, and
the two independent step-congruence columns. -/
def mkRow (zones : List Zone) (zdqy : Option (List Rect)) (ps : Params)
    (g : GridPoint) : Row :=
  let key := match zdqy with
    | some kas => kas.any (fun ka => ka.withinPt g.geom)
    | none => false
  { gp := g
    is_key_area := key
    dcfq := zoneOf zones g.geom
    is_boring := check_grid_condition key g.row g.col ps.offset_x ps.offset_y
        ps.boring_step ps.boring_step_zdqy
    is_wboring := check_grid_condition key g.row g.col ps.offset_x ps.offset_y
        ps.wboring_step ps.wboring_step_zdqy }

/-- Zero-padding of Python's `f'{n:04d}'`. -/
def pad4 (n : ℕ) : String :=
  (if n < 10 then "000" else if n < 100 then "00" else if n < 1000 then "0" else "")
    ++ toString n

/-- Materialize one output point from a joined row. -/
def mkBP (r : Row) (ty : BType) (code : String) : BoringPoint :=
  { id := r.gp.id
    geom := r.gp.geom
    row := r.gp.row
    col := r.gp.col
    is_key_area := r.is_key_area
    zone := r.dcfq.getD ""
    type := ty
    code := code
    moved := false
    original_geom := r.gp.geom }

/-- Sequential code assignment within one `(zone, type)` partition:
`f'S{i:04d}'` / `f'W{i:04d}'` for `i = 1, 2, …` in row order. -/
def assignCodes (pre : String) (ty : BType) : ℕ → List Row → List BoringPoint
  | _, [] => []
  | n, r :: rs => mkBP r ty (pre ++ pad4 n) :: assignCodes pre ty (n + 1) rs

/-- `pandas.unique`: the distinct values in first-appearance order. -/
def uniqueFirstAux (seen : List String) : List String → List String
  | [] => []
  | a :: l =>
      if a ∈ seen then uniqueFirstAux seen l
      else a :: uniqueFirstAux (a :: seen) l

/-- Distinct values of a list in first-appearance order. -/
def uniqueFirst (l : List String) : List String := uniqueFirstAux [] l

/-- `BoringPlanner.plan_boring`.  The result is `none` exactly when the grid
is empty: then `DCFQ.unique()` is empty, the per-zone loop never runs, and
the source raises `UnboundLocalError` on `return result_gdf`.  Otherwise, a
missing zone match is `NaN`; `NaN` appears in `unique()` but `== NaN`
selects no rows, so rows outside every zone contribute nothing (and the
model iterates only over the real zone names, in first-appearance order).
`moved`/`original_geom` are attached to every output row after the concat. -/
def plan_boring (grid : List GridPoint) (dcfq : List Zone)
    (zdqy : Option (List Rect)) (ps : Params) : Option (List BoringPoint) :=
  let rows := grid.map (mkRow dcfq zdqy ps)
  if rows.isEmpty then none
  else
    let names := uniqueFirst (rows.filterMap (fun r => r.dcfq))
    some (names.flatMap (fun z =>
      assignCodes "S" BType.BORING 1
          (rows.filter (fun r => r.dcfq == some z && r.is_boring))
        ++ assignCodes "W" BType.WBORING 1
          (rows.filter (fun r => r.dcfq == some z && r.is_wboring))))

/-- One draw from Python's seeded global `random` source, as consumed by
`_move_randomly`: `dir` is the unit vector `(cos θ, sin θ)` of the uniformly
drawn angle `θ = uniform(0, 2π)`, and `frac` is the unit draw of
`random.random()` behind `uniform(0, radius) = radius * frac`. -/
structure Draw where
  dir : Pt
  frac : ℚ
deriving DecidableEq, Repr

/-- The global random stream: draw number `k` of the seeded generator. -/
def Rng : Type := ℕ → Draw

/-- `BoringPlanner._move_randomly`: offset from the boundary point by the
drawn distance `radius * frac` in the drawn direction (the original point is
an unused parameter in the source). -/
def move_randomly (bpt : Pt) (radius : ℚ) (d : Draw) : Pt :=
  ⟨bpt.x + radius * d.frac * d.dir.x, bpt.y + radius * d.frac * d.dir.y⟩

/-- The 16 direction vectors `(cos θ, sin θ)` for
`θ ∈ np.linspace(0, 2π, 16, endpoint=False)`, i.e. `θ = 2πk/16` for
`k = 0, …, 15`, with the float64 values `np.cos`/`np.sin` produce (written
as their shortest decimal representations; every comparison in this
development has margin far above the float error, so the exact binary
values decide identically). -/
def dirs16 : List Pt :=
  [ ⟨1, 0⟩
  , ⟨0.9238795325112867, 0.3826834323650898⟩
  , ⟨0.7071067811865476, 0.7071067811865475⟩
  , ⟨0.38268343236508984, 0.9238795325112867⟩
  , ⟨0.00000000000000006123233995736766, 1⟩
  , ⟨-0.3826834323650897, 0.9238795325112867⟩
  , ⟨-0.7071067811865475, 0.7071067811865476⟩
  , ⟨-0.9238795325112867, 0.3826834323650899⟩
  , ⟨-1, 0.00000000000000012246467991473532⟩
  , ⟨-0.9238795325112868, -0.38268343236508967⟩
  , ⟨-0.7071067811865477, -0.7071067811865475⟩
  , ⟨-0.38268343236509034, -0.9238795325112865⟩
  , ⟨-0.00000000000000018369701987210297, -1⟩
  , ⟨0.38268343236509, -0.9238795325112866⟩
  , ⟨0.7071067811865474, -0.7071067811865477⟩
  , ⟨0.9238795325112865, -0.3826834323650904⟩ ]

/-- The 16 candidate positions of `_move_by_uncertainty`: distance
`radius * 0.5` from the boundary point along each sweep direction. -/
def candidates16 (bpt : Pt) (radius : ℚ) : List Pt :=
  dirs16.map (fun u => ⟨bpt.x + radius / 2 * u.x, bpt.y + radius / 2 * u.y⟩)

/-- `min(distances)` over the distances from `q` to the points of a
(nonempty in all uses) list, in squared form. -/
def minSqDistTo (q : Pt) : List Pt → ℚ
  | [] => 0
  | [v] => sqDist q v
  | v :: w :: vs => min (sqDist q v) (minSqDistTo q (w :: vs))

/-- The candidate `_move_by_uncertainty` selects: the code computes
`uncertainty = 1.0 - min_dist / radius` per candidate and takes
`np.argmax`, i.e. the first candidate maximizing `1 - min_dist / radius` —
equivalently (radius > 0, `sqrt` strictly monotone) the first candidate
minimizing the squared minimum distance to the nearby valid points. -/
def uncertaintyChoice (bpt : Pt) (radius : ℚ) (near : List Pt) : Pt :=
  match candidates16 bpt radius with
  | [] => bpt
  | c :: cs =>
      cs.foldl
        (fun best cand =>
          if minSqDistTo cand near < minSqDistTo best near then cand else best)
        c

/-- The planner-wide `avoid_algorithm` flag. -/
inductive AvoidMode
  | random
  | uncertainty
deriving DecidableEq, Repr

/-- `kdtree.query_ball_point(bpt, radius)`: the valid points within
distance `radius` of the boundary point (squared comparison; empty for a
negative radius). -/
def nearList (valid : List Pt) (radius : ℚ) (bpt : Pt) : List Pt :=
  if 0 ≤ radius then valid.filter (fun w => sqDist w bpt ≤ radius ^ 2)
  else []

/-- Relocation of one blocked point, given the pre-call valid-point
snapshot: `_move_by_uncertainty` when the mode is `uncertainty` and the
KD-tree exists (some valid point exists), else `_move_randomly`.  When the
neighborhood query is empty, `_move_by_uncertainty` falls back to
`_move_randomly`.  Returns the new position and the updated random-stream
cursor (only random moves consume draws). -/
def avoid_one (mode : AvoidMode) (valid : List Pt) (radius : ℚ) (bpt : Pt)
    (rng : Rng) (k : ℕ) : Pt × ℕ :=
  match mode, valid with
  | AvoidMode.uncertainty, v :: vs =>
      match nearList (v :: vs) radius bpt with
      | [] => (move_randomly bpt radius (rng k), k + 1)
      | w :: ws => (uncertaintyChoice bpt radius (w :: ws), k)
  | _, _ => (move_randomly bpt radius (rng k), k + 1)

/-- The per-point loop of `avoid_buildings`: a point strictly inside some
building (the join keeps its first — in all uses only — matching building)
is relocated from its boundary projection and marked `moved`; every other
point is returned unchanged.  `valid` is the pre-call snapshot; the KD-tree
is never updated mid-pass. -/
def avoidLoop (mode : AvoidMode) (valid : List Pt) (bs : List Rect)
    (radius : ℚ) (rng : Rng) : List BoringPoint → ℕ → List BoringPoint
  | [], _ => []
  | p :: ps, k =>
      match bs.find? (fun b => b.withinPt p.geom) with
      | none => p :: avoidLoop mode valid bs radius rng ps k
      | some b =>
          let bpt := b.nearestOnBoundary p.geom
          let step := avoid_one mode valid radius bpt rng k
          { p with geom := step.1, moved := true }
            :: avoidLoop mode valid bs radius rng ps step.2

/-- The pre-call snapshot of valid (non-blocked) point geometries over which
the KD-tree is built. -/
def validGeoms (pts : List BoringPoint) (bs : List Rect) : List Pt :=
  (pts.filter (fun p => !(bs.any (fun b => b.withinPt p.geom)))).map
    (fun p => p.geom)

/-- `BoringPlanner.avoid_buildings`: snapshot the valid (non-blocked)
points, then relocate each blocked point in iteration order.  (When no
point is blocked the loop is the identity, matching the source's early
return.) -/
def avoid_buildings (pts : List BoringPoint) (bs : List Rect) (radius : ℚ)
    (mode : AvoidMode) (rng : Rng) : List BoringPoint :=
  avoidLoop mode (validGeoms pts bs) bs radius rng pts 0

/-- Whether a point is blocked: strictly inside some building. -/
def blockedB (bs : List Rect) (p : BoringPoint) : Bool :=
  bs.any (fun b => b.withinPt p.geom)

/-- The purely deterministic per-point action of the uncertainty pass when
no random fallback fires: relocate a blocked point to the uncertainty
choice over the fixed valid-point snapshot, leave other points alone. -/
def relocDet (bs : List Rect) (valid : List Pt) (radius : ℚ)
    (p : BoringPoint) : BoringPoint :=
  match bs.find? (fun b => b.withinPt p.geom) with
  | none => p
  | some b =>
      if (nearList valid radius (b.nearestOnBoundary p.geom)).isEmpty then p
      else { p with
        geom := uncertaintyChoice (b.nearestOnBoundary p.geom) radius
          (nearList valid radius (b.nearestOnBoundary p.geom))
        moved := true }

/-! Concrete instances used by the claim scenarios. -/

/-- The 100m × 100m square zone polygon of the grid scenario. -/
def sq100 : Rect := ⟨0, 0, 100, 100⟩

/-- A small square zone named `Z`. -/
def zoneZ : Zone := ⟨"Z", ⟨0, 0, 2, 2⟩⟩

/-- A grid point strictly inside `zoneZ`, with `row = col = 0`. -/
def gIn : GridPoint := ⟨⟨1, 1⟩, 0, 0, 0⟩

/-- A grid point outside `zoneZ`. -/
def gOutZ : GridPoint := ⟨⟨5, 5⟩, 2, 2, 1⟩

/-- A grid point outside `zoneZ` whose `row = col = 0` passes both
step-congruence tests. -/
def gOut50 : GridPoint := ⟨⟨50, 50⟩, 0, 0, 7⟩

/-- The square building spanning (5,5)-(15,15). -/
def bld5 : Rect := ⟨5, 5, 15, 15⟩

/-- The square building spanning (0,0)-(10,10). -/
def bld10 : Rect := ⟨0, 0, 10, 10⟩

/-- A second far-away building, spanning (105,5)-(115,15). -/
def bld105 : Rect := ⟨105, 5, 115, 15⟩

/-- A boring point at (10,10), strictly inside `bld5`. -/
def pt1010 : BoringPoint :=
  ⟨0, ⟨10, 10⟩, 0, 0, false, "Z", BType.BORING, "S0001", false, ⟨10, 10⟩⟩

/-- A boring point at (20,10), outside `bld5` and within 20 of its
boundary. -/
def ptSide : BoringPoint :=
  ⟨1, ⟨20, 10⟩, 0, 1, false, "Z", BType.BORING, "S0002", false, ⟨20, 10⟩⟩

/-- A boring point at (110,10), strictly inside `bld105`. -/
def ptFar : BoringPoint :=
  ⟨1, ⟨110, 10⟩, 0, 5, false, "Z", BType.BORING, "S0002", false, ⟨110, 10⟩⟩

/-- A valid boring point at (200,200), farther than any search radius used
here from both buildings. -/
def ptAway : BoringPoint :=
  ⟨2, ⟨200, 200⟩, 10, 10, false, "Z", BType.BORING, "S0003", false, ⟨200, 200⟩⟩

/-- A blocked point at (5,2) inside `bld10`; its boundary projection is
(5,0). -/
def uPt : BoringPoint :=
  ⟨0, ⟨5, 2⟩, 0, 0, false, "Z", BType.BORING, "S0001", false, ⟨5, 2⟩⟩

/-- A valid boring point at (24,0): the only known data point near the
boundary projection (5,0) of `uPt` (distance 19 < 20). -/
def uValid : BoringPoint :=
  ⟨1, ⟨24, 0⟩, 0, 1, false, "Z", BType.BORING, "S0002", false, ⟨24, 0⟩⟩

/-- A concrete random stream: the seeded generator's first draw is angle π
with unit draw 1/4, every later draw is angle 3π/2 with unit draw 1/2. -/
def rngA : Rng := fun n => if n = 0 then ⟨⟨-1, 0⟩, 1/4⟩ else ⟨⟨0, -1⟩, 1/2⟩

/-- The output of `plan_boring [gIn] [zoneZ]` with default parameters. -/
def wOut : List BoringPoint :=
  [ mkBP (mkRow [zoneZ] none {} gIn) BType.BORING "S0001"
  , mkBP (mkRow [zoneZ] none {} gIn) BType.WBORING "W0001" ]

/-- The BORING entry of `wOut`. -/
def wBp : BoringPoint := mkBP (mkRow [zoneZ] none {} gIn) BType.BORING "S0001"

/-- The relocated copy of `pt1010` after the uncertainty pass with stream
`rngA`: moved, with geometry back at its original location. -/
def qMoved : BoringPoint := { pt1010 with moved := true }

/-- A zero-length random move stays at the boundary point: the drawn
distance is `radius * frac = 0` whatever the draw. -/
theorem move_randomly_zero (bpt : Pt) (d : Draw) : move_randomly bpt 0 d = bpt := by
  simp [move_randomly]

/-- Every point of a code-assignment block is `mkBP` of some row of the
block, with a code built from the block's letter. -/
theorem mem_assignCodes (pre : String) (ty : BType) :
    ∀ (n : ℕ) (l : List Row) (bp : BoringPoint), bp ∈ assignCodes pre ty n l →
      ∃ r ∈ l, ∃ m, bp = mkBP r ty (pre ++ pad4 m)
  | _, [], bp, h => by simp [assignCodes] at h
  | n, r :: rs, bp, h => by
      rw [assignCodes] at h
      rcases List.mem_cons.mp h with h1 | h1
      · exact ⟨r, List.mem_cons_self r rs, n, h1⟩
      · rcases mem_assignCodes pre ty (n + 1) rs bp h1 with ⟨r2, hr2, m, hm⟩
        exact ⟨r2, List.mem_cons_of_mem r hr2, m, hm⟩

/-- Every row of a block contributes a point to its code assignment. -/
theorem assignCodes_mem (pre : String) (ty : BType) :
    ∀ (n : ℕ) (l : List Row) (r : Row), r ∈ l →
      ∃ m, mkBP r ty (pre ++ pad4 m) ∈ assignCodes pre ty n l
  | _, [], r, h => absurd h (List.not_mem_nil r)
  | n, a :: rs, r, h => by
      rw [assignCodes]
      rcases List.mem_cons.mp h with rfl | h1
      · exact ⟨n, List.mem_cons_self _ _⟩
      · rcases assignCodes_mem pre ty (n + 1) rs r h1 with ⟨m, hm⟩
        exact ⟨m, List.mem_cons_of_mem _ hm⟩

/-- The successful result of `plan_boring`, written out. -/
theorem plan_boring_out_eq (grid : List GridPoint) (zones : List Zone)
    (zdqy : Option (List Rect)) (ps : Params) (out : List BoringPoint)
    (h : plan_boring grid zones zdqy ps = some out) :
    out = (uniqueFirst
        ((grid.map (mkRow zones zdqy ps)).filterMap (fun r => r.dcfq))).flatMap
      (fun z =>
        assignCodes "S" BType.BORING 1
            ((grid.map (mkRow zones zdqy ps)).filter
              (fun r => r.dcfq == some z && r.is_boring))
          ++ assignCodes "W" BType.WBORING 1
            ((grid.map (mkRow zones zdqy ps)).filter
              (fun r => r.dcfq == some z && r.is_wboring))) := by
  unfold plan_boring at h
  dsimp only [] at h
  split at h
  · exact absurd h (by simp)
  · exact (Option.some.inj h).symm

/-- Every output point of `plan_boring` comes from a grid point that joins
to a zone, with the fields `mkBP` assigns and a true congruence flag for
its type. -/
theorem plan_boring_sound (grid : List GridPoint) (zones : List Zone)
    (zdqy : Option (List Rect)) (ps : Params) (out : List BoringPoint)
    (h : plan_boring grid zones zdqy ps = some out) :
    ∀ bp ∈ out, ∃ g ∈ grid, ∃ m,
      (mkRow zones zdqy ps g).dcfq = some bp.zone ∧
      ((bp = mkBP (mkRow zones zdqy ps g) BType.BORING ("S" ++ pad4 m) ∧
          (mkRow zones zdqy ps g).is_boring = true) ∨
        (bp = mkBP (mkRow zones zdqy ps g) BType.WBORING ("W" ++ pad4 m) ∧
          (mkRow zones zdqy ps g).is_wboring = true)) := by
  intro bp hbp
  rw [plan_boring_out_eq grid zones zdqy ps out h] at hbp
  rcases List.mem_flatMap.mp hbp with ⟨z, _, hmem⟩
  rcases List.mem_append.mp hmem with hm | hm
  · rcases mem_assignCodes _ _ _ _ _ hm with ⟨r, hr, m, rfl⟩
    rcases List.mem_filter.mp hr with ⟨hrl, hcond⟩
    rcases List.mem_map.mp hrl with ⟨g, hg, rfl⟩
    simp only [Bool.and_eq_true, beq_iff_eq] at hcond
    refine ⟨g, hg, m, ?_, Or.inl ⟨rfl, hcond.2⟩⟩
    rw [hcond.1]
    simp [mkBP, hcond.1]
  · rcases mem_assignCodes _ _ _ _ _ hm with ⟨r, hr, m, rfl⟩
    rcases List.mem_filter.mp hr with ⟨hrl, hcond⟩
    rcases List.mem_map.mp hrl with ⟨g, hg, rfl⟩
    simp only [Bool.and_eq_true, beq_iff_eq] at hcond
    refine ⟨g, hg, m, ?_, Or.inr ⟨rfl, hcond.2⟩⟩
    rw [hcond.1]
    simp [mkBP, hcond.1]

/-- C2.  Every grid point given to `plan_boring` that lies strictly outside
all zone polygons is dropped: no output point carries its identifier,
regardless of its step-congruence flags. -/
theorem plan_boring_drops_points_outside_all_zones
    (grid : List GridPoint) (zones : List Zone) (zdqy : Option (List Rect))
    (ps : Params) (g : GridPoint)
    (hg : g ∈ grid)
    (huniq : ∀ g2 ∈ grid, g2.id = g.id → g2 = g)
    (hout : ∀ z ∈ zones, z.area.withinPt g.geom = false) :
    ∀ out, plan_boring grid zones zdqy ps = some out →
      out.filter (fun bp => bp.id == g.id) = [] := by
  intro out h
  rw [List.filter_eq_nil_iff]
  intro bp hbp
  simp only [beq_iff_eq]
  intro hid
  rcases plan_boring_sound grid zones zdqy ps out h bp hbp with ⟨g2, hg2, _, hdc, hcase⟩
  have hbpid : bp.id = g2.id := by
    rcases hcase with ⟨rfl, _⟩ | ⟨rfl, _⟩ <;> rfl
  have hgg : g2 = g := huniq g2 hg2 (hbpid ▸ hid)
  subst hgg
  have hnone : zoneOf zones g2.geom = none := by
    unfold zoneOf
    rw [List.find?_eq_none.mpr]
    · rfl
    · intro z hzz
      simp [hout z hzz]
  have hdc2 : zoneOf zones g2.geom = some bp.zone := hdc
  rw [hnone] at hdc2
  exact Option.noConfusion hdc2

/-- C2 (witness): in the two-point instance `[gIn, gOutZ]`, the point
`gOutZ` outside `zoneZ` contributes no output entry. -/
theorem plan_boring_drops_outside_witness :
    wOut.filter (fun bp => bp.id == gOutZ.id) = [] :=
  plan_boring_drops_points_outside_all_zones [gIn, gOutZ] [zoneZ] none {} gOutZ
    (by with_unfolding_all decide) (by with_unfolding_all decide)
    (by with_unfolding_all decide) wOut (by with_unfolding_all decide)

/-- The step-congruence test, read back as congruences for each key-area
case. -/
theorem row_congruence (key : Bool) (row col ox oy st st2 : ℤ)
    (h : check_grid_condition key row col ox oy st st2 = true) :
    (key = false → (col - ox) % st = 0 ∧ (row - oy) % st = 0) ∧
    (key = true → (col - ox) % st2 = 0 ∧ (row - oy) % st2 = 0) := by
  cases key
  · simp only [check_grid_condition, Bool.false_eq_true, if_false,
      Bool.and_eq_true, beq_iff_eq] at h
    exact ⟨fun _ => h, fun hk => Bool.noConfusion hk⟩
  · simp only [check_grid_condition, if_true, Bool.and_eq_true, beq_iff_eq] at h
    exact ⟨fun hk => Bool.noConfusion hk, fun _ => h⟩

/-- C4.  Every output point of `plan_boring` satisfies the step-congruence
of its type and key-area class: BORING points use `boring_step`
(`boring_step_zdqy` inside key areas), WBORING points use `wboring_step`
(`wboring_step_zdqy` inside key areas), on `(col - offset_x)` and
`(row - offset_y)`. -/
theorem output_step_congruence
    (grid : List GridPoint) (zones : List Zone) (zdqy : Option (List Rect))
    (ps : Params) (out : List BoringPoint) (bp : BoringPoint)
    (h : plan_boring grid zones zdqy ps = some out) (hbp : bp ∈ out) :
    (bp.type = BType.BORING → bp.is_key_area = false →
      (bp.col - ps.offset_x) % ps.boring_step = 0 ∧
      (bp.row - ps.offset_y) % ps.boring_step = 0) ∧
    (bp.type = BType.BORING → bp.is_key_area = true →
      (bp.col - ps.offset_x) % ps.boring_step_zdqy = 0 ∧
      (bp.row - ps.offset_y) % ps.boring_step_zdqy = 0) ∧
    (bp.type = BType.WBORING → bp.is_key_area = false →
      (bp.col - ps.offset_x) % ps.wboring_step = 0 ∧
      (bp.row - ps.offset_y) % ps.wboring_step = 0) ∧
    (bp.type = BType.WBORING → bp.is_key_area = true →
      (bp.col - ps.offset_x) % ps.wboring_step_zdqy = 0 ∧
      (bp.row - ps.offset_y) % ps.wboring_step_zdqy = 0) := by
  rcases plan_boring_sound grid zones zdqy ps out h bp hbp with ⟨g, _, _, _, hcase⟩
  rcases hcase with ⟨rfl, hcond⟩ | ⟨rfl, hcond⟩ <;>
    simp only [mkRow] at hcond <;>
    have H := row_congruence _ _ _ _ _ _ _ hcond <;>
    simp only [mkBP, mkRow] <;>
    refine ⟨?_, ?_, ?_, ?_⟩ <;>
    intro ht hk <;>
    first
      | exact Option.noConfusion ht
      | exact BType.noConfusion ht
      | exact H.1 hk
      | exact H.2 hk

/-- C4 (witness): the BORING entry of the one-point instance satisfies its
congruences. -/
theorem output_step_congruence_witness :
    (wBp.type = BType.BORING → wBp.is_key_area = false →
      (wBp.col - ({} : Params).offset_x) % ({} : Params).boring_step = 0 ∧
      (wBp.row - ({} : Params).offset_y) % ({} : Params).boring_step = 0) ∧
    (wBp.type = BType.BORING → wBp.is_key_area = true →
      (wBp.col - ({} : Params).offset_x) % ({} : Params).boring_step_zdqy = 0 ∧
      (wBp.row - ({} : Params).offset_y) % ({} : Params).boring_step_zdqy = 0) ∧
    (wBp.type = BType.WBORING → wBp.is_key_area = false →
      (wBp.col - ({} : Params).offset_x) % ({} : Params).wboring_step = 0 ∧
      (wBp.row - ({} : Params).offset_y) % ({} : Params).wboring_step = 0) ∧
    (wBp.type = BType.WBORING → wBp.is_key_area = true →
      (wBp.col - ({} : Params).offset_x) % ({} : Params).wboring_step_zdqy = 0 ∧
      (wBp.row - ({} : Params).offset_y) % ({} : Params).wboring_step_zdqy = 0) :=
  output_step_congruence [gIn] [zoneZ] none {} wOut wBp
    (by with_unfolding_all decide) (by with_unfolding_all decide)

/-- C1.  The claim says the uncertainty strategy relocates the blocked
point to the candidate with the maximum min-distance-to-known-data score
(farthest from known data).  The code computes
`uncertainty = 1.0 - min_dist / radius` — decreasing in the distance — and
takes `argmax`, so it relocates to the candidate NEAREST the known data,
contradicting the claim and the function's own docstring ("the farther
from known points, the greater the uncertainty").  Concretely: blocked
point (5,2) in the building (0,0)-(10,10) has boundary projection (5,0);
the single nearby valid point is (24,0); the code relocates to (15,0), the
candidate whose min distance to the valid point is minimal over the whole
sweep (and strictly smaller than another candidate's). -/
theorem uncertainty_move_picks_nearest_candidate :
    (avoid_buildings [uPt, uValid] [bld10] 20 AvoidMode.uncertainty rngA).map
        (fun q => (q.geom, q.moved))
      = [((⟨15, 0⟩ : Pt), true), ((⟨24, 0⟩ : Pt), false)] ∧
    (∀ c ∈ candidates16 ⟨5, 0⟩ 20,
      minSqDistTo (⟨15, 0⟩ : Pt) [⟨24, 0⟩] ≤ minSqDistTo c [⟨24, 0⟩]) ∧
    (∃ c ∈ candidates16 ⟨5, 0⟩ 20,
      minSqDistTo (⟨15, 0⟩ : Pt) [⟨24, 0⟩] < minSqDistTo c [⟨24, 0⟩]) := by
  with_unfolding_all decide

/-- C3 (counterexample).  The claim says all 25 lattice points of the
100×100 zone at grid size 20 are retained by the strict-containment
filter; in fact the 9 points on the zone's boundary (x = 0 or y = 0) are
dropped, so `create_grid` outputs 16 points, not 25. -/
theorem grid_scenario_not_25_points :
    (create_grid [sq100] 20).length ≠ 25 := by
  with_unfolding_all decide

/-- C3 (amended).  For the 100×100 square zone with grid size 20,
`create_grid` generates the 5×5 lattice (0,0)…(80,80) but strict
containment drops the boundary points, leaving the 16 points with
coordinates in {20,40,60,80}² and lattice indices (row, col) ∈ {1,…,4}²;
with default parameters (boringStep 2, wboringStep 8, no offsets)
`plan_boring` then yields exactly 4 BORING points, at
(row, col) ∈ {2,4}², and 0 WBORING points. -/
theorem grid_scenario_16_points_4_boring_0_wboring :
    (create_grid [sq100] 20).map (fun g => (g.geom.x, g.geom.y))
      = [ (20, 20), (20, 40), (20, 60), (20, 80)
        , (40, 20), (40, 40), (40, 60), (40, 80)
        , (60, 20), (60, 40), (60, 60), (60, 80)
        , (80, 20), (80, 40), (80, 60), (80, 80) ] ∧
    (((plan_boring (create_grid [sq100] 20) [⟨"Z", sq100⟩] none {}).getD
        []).filter (fun b => b.type == BType.BORING)).map
        (fun b => (b.row, b.col))
      = [(2, 2), (4, 2), (2, 4), (4, 4)] ∧
    (((plan_boring (create_grid [sq100] 20) [⟨"Z", sq100⟩] none {}).getD
        []).filter (fun b => b.type == BType.WBORING)).length = 0 := by
  with_unfolding_all decide

/-- C5 (counterexample).  The claim says `plan_boring` fails with
`MissingZoneDataError` whenever the zones input is empty; in fact no such
error exists anywhere in the code: with empty zones and a nonempty grid
the function returns a normal (empty) result. -/
theorem plan_boring_empty_zones_returns_result :
    plan_boring [gIn] [] none {} = some [] := by
  with_unfolding_all decide

/-- C5 (amended).  `plan_boring` performs no zone validation and never
raises `MissingZoneDataError`: with empty zones and a nonempty grid every
point joins to no zone and the result is empty but normal; the only
failure is with an empty grid (any zones), where the per-zone loop never
runs and the source hits `UnboundLocalError` on `return result_gdf`
(modelled as `none`). -/
theorem plan_boring_no_zone_validation :
    plan_boring [gIn] [] none {} = some [] ∧
    plan_boring [gIn, gOutZ] [] none {} = some [] ∧
    plan_boring [] [] none {} = none ∧
    plan_boring [] [zoneZ] none {} = none := by
  with_unfolding_all decide

/-- C6 (counterexample).  The claim says `avoid_buildings` fails with
`InvalidParameterError` for `searchRadius ≤ 0` before touching any point;
in fact no validation exists: with `searchRadius = 0` the blocked point at
(10,10) is relocated (to its boundary projection (15,10), since the drawn
distance is `0 * frac = 0`) and marked moved. -/
theorem avoid_buildings_zero_radius_moves_point :
    (avoid_buildings [pt1010] [bld5] 0 AvoidMode.uncertainty rngA).map
        (fun q => (q.geom, q.moved)) = [((⟨15, 10⟩ : Pt), true)] ∧
    pt1010.geom ≠ (⟨15, 10⟩ : Pt) := by
  with_unfolding_all decide

/-- C6 (amended).  `avoid_buildings` performs no `searchRadius`
validation and never raises `InvalidParameterError`: with
`searchRadius = 0` it runs normally and still touches blocked points —
whatever the random draws, the blocked point at (10,10) is relocated to
its boundary projection (15,10) and marked moved. -/
theorem avoid_buildings_no_radius_validation :
    ∀ rng : Rng,
      (avoid_buildings [pt1010] [bld5] 0 AvoidMode.uncertainty rng).map
        (fun q => (q.geom, q.moved)) = [((⟨15, 10⟩ : Pt), true)] := by
  intro rng
  have h : avoid_buildings [pt1010] [bld5] 0 AvoidMode.uncertainty rng
      = [{ pt1010 with
            geom := move_randomly (Rect.nearestOnBoundary bld5 ⟨10, 10⟩) 0 (rng 0)
            moved := true }] := by
    with_unfolding_all rfl
  rw [h, move_randomly_zero]
  with_unfolding_all decide

/-- C6 (witness for the amended theorem, at the concrete stream `rngA`). -/
theorem avoid_buildings_no_radius_validation_witness :
    (avoid_buildings [pt1010] [bld5] 0 AvoidMode.uncertainty rngA).map
        (fun q => (q.geom, q.moved)) = [((⟨15, 10⟩ : Pt), true)] :=
  avoid_buildings_no_radius_validation rngA

/-- C9.  The claim (and `_move_randomly`'s own docstring, "randomly move
the point outside the building") says the random strategy produces a
point outside the building polygon; the code only offsets from the
boundary projection by a random vector and never checks containment, so
the draw angle π, distance 5 (unit draw 1/4 at radius 20) relocates the
point at (10,10) in the building (5,5)-(15,15) from its boundary
projection (15,10) right back to (10,10) — strictly inside the building —
while still marking it moved. -/
theorem random_move_can_land_inside_building :
    (avoid_buildings [pt1010] [bld5] 20 AvoidMode.random rngA).map
        (fun q => (q.geom, q.moved)) = [((⟨10, 10⟩ : Pt), true)] ∧
    bld5.withinPt ⟨10, 10⟩ = true := by
  with_unfolding_all decide

/-- C8 (counterexample).  The claim says `moved = true` iff the current
geometry differs from `original_geom`; but a relocation can land exactly
on the original location: with the whole collection blocked (no valid
points), the uncertainty pass falls back to a random move, and the draw
angle π, distance 5 relocates (10,10) back to (10,10) with
`moved = true`. -/
theorem moved_true_with_unchanged_geometry :
    ∃ q ∈ avoid_buildings [pt1010] [bld5] 20 AvoidMode.uncertainty rngA,
      q.moved = true ∧ q.geom = q.original_geom := by
  with_unfolding_all decide

/-- The minimum is a lower bound on every squared distance to a list
member. -/
theorem minSqDistTo_le (q : Pt) :
    ∀ (l : List Pt) (v : Pt), v ∈ l → minSqDistTo q l ≤ sqDist q v
  | [], v, h => absurd h (List.not_mem_nil v)
  | [w], v, h => by
      rw [List.mem_singleton.mp h]
      simp [minSqDistTo]
  | w :: x :: xs, v, h => by
      rcases List.mem_cons.mp h with heq | h1
      · rw [heq]
        simp only [minSqDistTo]
        exact min_le_left _ _
      · calc minSqDistTo q (w :: x :: xs) ≤ minSqDistTo q (x :: xs) := by
              simp only [minSqDistTo]
              exact min_le_right _ _
          _ ≤ sqDist q v := minSqDistTo_le q (x :: xs) v h1

/-- The minimum squared distance to a nonempty list is attained by a
member. -/
theorem minSqDistTo_mem (q : Pt) :
    ∀ (l : List Pt), l ≠ [] → ∃ v ∈ l, minSqDistTo q l = sqDist q v
  | [], h => absurd rfl h
  | [w], _ => ⟨w, List.mem_cons_self w [], by simp [minSqDistTo]⟩
  | w :: x :: xs, _ => by
      rcases minSqDistTo_mem q (x :: xs) (by simp) with ⟨v, hv, he⟩
      by_cases hc : sqDist q w ≤ minSqDistTo q (x :: xs)
      · refine ⟨w, List.mem_cons_self _ _, ?_⟩
        simp only [minSqDistTo]
        rw [min_eq_left hc]
      · refine ⟨v, List.mem_cons_of_mem _ hv, ?_⟩
        simp only [minSqDistTo]
        rw [min_eq_right (le_of_not_le hc), he]

/-- The minimum squared distance is invariant under permutation of the
point list. -/
theorem minSqDistTo_perm (q : Pt) {l₁ l₂ : List Pt} (h : l₁.Perm l₂)
    (h₁ : l₁ ≠ []) : minSqDistTo q l₁ = minSqDistTo q l₂ := by
  have h₂ : l₂ ≠ [] := by
    intro e
    subst e
    exact h₁ h.eq_nil
  obtain ⟨v₁, hv₁, e₁⟩ := minSqDistTo_mem q l₁ h₁
  obtain ⟨v₂, hv₂, e₂⟩ := minSqDistTo_mem q l₂ h₂
  apply le_antisymm
  · rw [e₂]
    exact minSqDistTo_le q l₁ v₂ (h.mem_iff.mpr hv₂)
  · rw [e₁]
    exact minSqDistTo_le q l₂ v₁ (h.mem_iff.mp hv₁)

/-- The first-minimum fold only depends on the scoring function's
values. -/
theorem foldl_min_congr (f g : Pt → ℚ) (hfg : ∀ r : Pt, f r = g r) :
    ∀ (l : List Pt) (c : Pt),
      l.foldl (fun best cand => if f cand < f best then cand else best) c
        = l.foldl (fun best cand => if g cand < g best then cand else best) c := by
  intro l
  induction l with
  | nil => intro c; rfl
  | cons d ds ih =>
      intro c
      simp only [List.foldl_cons, hfg]

/-- The uncertainty choice only depends on the neighborhood as a multiset:
`np.argmax` over the 16 candidates compares minimum distances, which are
permutation invariant. -/
theorem uncertaintyChoice_perm (bpt : Pt) (radius : ℚ) {n₁ n₂ : List Pt}
    (h : n₁.Perm n₂) (hne : n₁ ≠ []) :
    uncertaintyChoice bpt radius n₁ = uncertaintyChoice bpt radius n₂ := by
  unfold uncertaintyChoice
  cases candidates16 bpt radius with
  | nil => rfl
  | cons c cs =>
      exact foldl_min_congr (fun r => minSqDistTo r n₁) (fun r => minSqDistTo r n₂)
        (fun r => minSqDistTo_perm r h hne) cs c

/-- The neighborhood query respects permutation of the valid snapshot. -/
theorem nearList_perm {v₁ v₂ : List Pt} (h : v₁.Perm v₂) (radius : ℚ)
    (bpt : Pt) : (nearList v₁ radius bpt).Perm (nearList v₂ radius bpt) := by
  unfold nearList
  split
  · exact h.filter _
  · exact List.Perm.refl []

/-- Permuted lists are empty together. -/
theorem perm_isEmpty_eq {α : Type} {l₁ l₂ : List α} (h : l₁.Perm l₂) :
    l₁.isEmpty = l₂.isEmpty := by
  cases l₁ with
  | nil => rw [h.symm.eq_nil]
  | cons a t =>
      cases l₂ with
      | nil => exact absurd h.eq_nil (List.cons_ne_nil a t)
      | cons b u => rfl

/-- The deterministic relocation only depends on the valid snapshot as a
multiset. -/
theorem relocDet_congr (bs : List Rect) (radius : ℚ) {v₁ v₂ : List Pt}
    (h : v₁.Perm v₂) (p : BoringPoint) :
    relocDet bs v₁ radius p = relocDet bs v₂ radius p := by
  rcases hfb : bs.find? (fun b => b.withinPt p.geom) with _ | b
  · simp only [relocDet, hfb]
  · simp only [relocDet, hfb]
    have hperm := nearList_perm h radius (b.nearestOnBoundary p.geom)
    have hie : (nearList v₁ radius (b.nearestOnBoundary p.geom)).isEmpty
        = (nearList v₂ radius (b.nearestOnBoundary p.geom)).isEmpty :=
      perm_isEmpty_eq hperm
    rw [hie]
    split
    · rfl
    · next hcond =>
        have hne2 : nearList v₂ radius (b.nearestOnBoundary p.geom) ≠ [] := by
          intro e
          exact hcond (by rw [e]; rfl)
        have hne1 : nearList v₁ radius (b.nearestOnBoundary p.geom) ≠ [] := by
          intro e
          exact hne2 ((e ▸ hperm).symm.eq_nil)
        rw [uncertaintyChoice_perm (b.nearestOnBoundary p.geom) radius hperm hne1]

/-- The deterministic relocation preserves identifiers. -/
theorem relocDet_id (bs : List Rect) (valid : List Pt) (radius : ℚ)
    (p : BoringPoint) : (relocDet bs valid radius p).id = p.id := by
  rcases hfb : bs.find? (fun b => b.withinPt p.geom) with _ | b
  · simp only [relocDet, hfb]
  · simp only [relocDet, hfb]
    split <;> rfl

/-- When the mode is `uncertainty`, the snapshot is nonempty and the
neighborhood query is nonempty, the per-point relocation is deterministic
and consumes no random draw. -/
theorem avoid_one_det (valid : List Pt) (radius : ℚ) (bpt : Pt) (rng : Rng)
    (k : ℕ) (hvalid : valid ≠ []) (hnear : nearList valid radius bpt ≠ []) :
    avoid_one AvoidMode.uncertainty valid radius bpt rng k
      = (uncertaintyChoice bpt radius (nearList valid radius bpt), k) := by
  cases valid with
  | nil => exact absurd rfl hvalid
  | cons v vs =>
      simp only [avoid_one]
      cases hn : nearList (v :: vs) radius bpt with
      | nil => exact absurd hn hnear
      | cons w ws => rfl

/-- Under the no-fallback condition the avoidance loop is the pointwise
map of the deterministic relocation (the random stream is unused). -/
theorem avoidLoop_det (bs : List Rect) (valid : List Pt) (radius : ℚ)
    (rng : Rng) (hvalid : valid ≠ []) :
    ∀ (l : List BoringPoint) (k : ℕ),
      (∀ p ∈ l, ∀ b ∈ bs, bs.find? (fun r => r.withinPt p.geom) = some b →
        nearList valid radius (b.nearestOnBoundary p.geom) ≠ []) →
      avoidLoop AvoidMode.uncertainty valid bs radius rng l k
        = l.map (relocDet bs valid radius)
  | [], _, _ => rfl
  | p :: ps, k, H => by
      have Hps : ∀ p2 ∈ ps, ∀ b ∈ bs,
          bs.find? (fun r => r.withinPt p2.geom) = some b →
          nearList valid radius (b.nearestOnBoundary p2.geom) ≠ [] :=
        fun p2 hp2 => H p2 (List.mem_cons_of_mem _ hp2)
      rw [avoidLoop, List.map_cons]
      cases hf : bs.find? (fun b => b.withinPt p.geom) with
      | none =>
          rw [avoidLoop_det bs valid radius rng hvalid ps k Hps]
          simp only [relocDet, hf]
      | some b =>
          have hne := H p (List.mem_cons_self _ _) b (List.mem_of_find?_eq_some hf) hf
          simp only [relocDet, hf,
            avoid_one_det valid radius (b.nearestOnBoundary p.geom) rng k hvalid hne]
          rw [if_neg (by simpa [List.isEmpty_iff] using hne)]
          rw [avoidLoop_det bs valid radius rng hvalid ps k Hps]

/-- The lookup by an absent identifier in a mapped list is `none`, when
the map preserves identifiers. -/
theorem find?_map_eq_none (f : BoringPoint → BoringPoint)
    (hf : ∀ q, (f q).id = q.id) (l : List BoringPoint) (i : ℕ)
    (h : ∀ p ∈ l, p.id ≠ i) :
    (l.map f).find? (fun q => q.id == i) = none := by
  rw [List.find?_eq_none]
  intro q hq
  rcases List.mem_map.mp hq with ⟨p, hp, rfl⟩
  simp only [beq_iff_eq, hf]
  exact h p hp

/-- With pairwise-distinct identifiers preserved by the map, lookup by a
present identifier in the mapped list is the image of the unique point
with that identifier. -/
theorem find?_map_eq_some (f : BoringPoint → BoringPoint)
    (hf : ∀ q, (f q).id = q.id) :
    ∀ (l : List BoringPoint), (l.map (fun p => p.id)).Nodup →
      ∀ (p : BoringPoint) (i : ℕ), p ∈ l → p.id = i →
        (l.map f).find? (fun q => q.id == i) = some (f p)
  | [], _, p, _, hp, _ => absurd hp (List.not_mem_nil p)
  | a :: l, hnd, p, i, hp, hpi => by
      rw [List.map_cons, List.find?]
      have hnd2 : (∀ x ∈ l, ¬x.id = a.id) ∧ (l.map (fun p => p.id)).Nodup := by
        simpa using hnd
      rcases hnd2 with ⟨hna, hndl⟩
      by_cases ha : a.id = i
      · have hpa : p = a := by
          rcases List.mem_cons.mp hp with heq | hmem
          · exact heq
          · exact absurd (hpi.trans ha.symm) (hna p hmem)
        rw [show ((f a).id == i) = true from by simp [hf, ha]]
        rw [hpa]
      · have hpl : p ∈ l := by
          rcases List.mem_cons.mp hp with heq | hmem
          · exact absurd (heq ▸ hpi) ha
          · exact hmem
        rw [show ((f a).id == i) = false from by simp [hf, ha]]
        exact find?_map_eq_some f hf l hndl p i hpl hpi

/-- C7 (amended).  The claim's order independence fails when random
fallbacks fire (see the counterexample); what holds is: in uncertainty
mode, whenever the valid snapshot is nonempty and every blocked point has
a valid point within `searchRadius` of its boundary projection (so no
relocation falls back to the seeded random source), the identifier-to-
(geometry, moved) mapping of the result is invariant under any
permutation of the input collection — and even under changing the random
stream — because every relocation is computed against the pre-call
snapshot and the nearest-neighbor data is never updated mid-pass. -/
theorem avoid_buildings_order_independent_no_fallback
    (pts₁ pts₂ : List BoringPoint) (bs : List Rect) (radius : ℚ)
    (rng₁ rng₂ : Rng)
    (hperm : pts₁.Perm pts₂)
    (hids : (pts₁.map (fun p => p.id)).Nodup)
    (hvalid : validGeoms pts₁ bs ≠ [])
    (hnear : ∀ p ∈ pts₁, ∀ b ∈ bs,
        bs.find? (fun r => r.withinPt p.geom) = some b →
        nearList (validGeoms pts₁ bs) radius (b.nearestOnBoundary p.geom) ≠ []) :
    ∀ i : ℕ,
      ((avoid_buildings pts₁ bs radius AvoidMode.uncertainty rng₁).find?
          (fun q => q.id == i)).map (fun q => (q.geom, q.moved))
        = ((avoid_buildings pts₂ bs radius AvoidMode.uncertainty rng₂).find?
          (fun q => q.id == i)).map (fun q => (q.geom, q.moved)) := by
  intro i
  have hvperm : (validGeoms pts₁ bs).Perm (validGeoms pts₂ bs) := by
    unfold validGeoms
    exact (hperm.filter _).map _
  have hvalid2 : validGeoms pts₂ bs ≠ [] := by
    intro e
    rw [e] at hvperm
    exact hvalid hvperm.eq_nil
  have hnear2 : ∀ p ∈ pts₂, ∀ b ∈ bs,
      bs.find? (fun r => r.withinPt p.geom) = some b →
      nearList (validGeoms pts₂ bs) radius (b.nearestOnBoundary p.geom) ≠ [] := by
    intro p hp b hb hf e
    have hnp := nearList_perm hvperm radius (b.nearestOnBoundary p.geom)
    rw [e] at hnp
    exact hnear p (hperm.mem_iff.mpr hp) b hb hf hnp.eq_nil
  unfold avoid_buildings
  rw [avoidLoop_det bs (validGeoms pts₁ bs) radius rng₁ hvalid pts₁ 0 hnear,
    avoidLoop_det bs (validGeoms pts₂ bs) radius rng₂ hvalid2 pts₂ 0 hnear2]
  have hmapeq : pts₂.map (relocDet bs (validGeoms pts₂ bs) radius)
      = pts₂.map (relocDet bs (validGeoms pts₁ bs) radius) :=
    List.map_congr_left (fun p _ => (relocDet_congr bs radius hvperm p).symm)
  rw [hmapeq]
  by_cases hex : ∃ p ∈ pts₁, p.id = i
  · rcases hex with ⟨p, hp, hpi⟩
    rw [find?_map_eq_some (relocDet bs (validGeoms pts₁ bs) radius)
        (relocDet_id bs (validGeoms pts₁ bs) radius) pts₁ hids p i hp hpi,
      find?_map_eq_some (relocDet bs (validGeoms pts₁ bs) radius)
        (relocDet_id bs (validGeoms pts₁ bs) radius) pts₂
        ((hperm.map _).nodup hids) p i (hperm.mem_iff.mp hp) hpi]
  · push_neg at hex
    rw [find?_map_eq_none _ (relocDet_id bs (validGeoms pts₁ bs) radius) pts₁ i hex,
      find?_map_eq_none _ (relocDet_id bs (validGeoms pts₁ bs) radius) pts₂ i
        (fun p hp => hex p (hperm.mem_iff.mpr hp))]

/-- C7 (witness): swapping the two-point collection (blocked `pt1010`,
valid `ptSide`) does not change the lookup of identifier 0, for any two
streams. -/
theorem avoid_buildings_order_independent_witness :
    ((avoid_buildings [pt1010, ptSide] [bld5] 20 AvoidMode.uncertainty rngA).find?
        (fun q => q.id == 0)).map (fun q => (q.geom, q.moved))
      = ((avoid_buildings [ptSide, pt1010] [bld5] 20 AvoidMode.uncertainty rngA).find?
        (fun q => q.id == 0)).map (fun q => (q.geom, q.moved)) :=
  avoid_buildings_order_independent_no_fallback [pt1010, ptSide] [ptSide, pt1010]
    [bld5] 20 rngA rngA (by with_unfolding_all decide)
    (by with_unfolding_all decide) (by with_unfolding_all decide)
    (by with_unfolding_all decide) 0

/-- C7 (counterexample).  The claim says the result of the uncertainty
pass is independent of the input iteration order given a fixed random
seed; but random-fallback relocations consume the one seeded stream in
processing order, so with two blocked points whose neighborhoods are
empty (both fall back to random moves), swapping them reassigns the
draws: point id 0 ends at (10,10) in one order and at (15,0) in the
other. -/
theorem avoid_buildings_order_dependent_with_fallback :
    [ptFar, pt1010, ptAway].Perm [pt1010, ptFar, ptAway] ∧
    ((avoid_buildings [pt1010, ptFar, ptAway] [bld5, bld105] 20
          AvoidMode.uncertainty rngA).find? (fun q => q.id == 0)).map
        (fun q => (q.geom, q.moved))
      ≠ ((avoid_buildings [ptFar, pt1010, ptAway] [bld5, bld105] 20
          AvoidMode.uncertainty rngA).find? (fun q => q.id == 0)).map
        (fun q => (q.geom, q.moved)) := by
  with_unfolding_all decide

/-- Every point of the avoidance loop's output comes from an input point
with the same identifier and original geometry; its moved flag is the old
flag or-ed with being blocked, and non-blocked points pass through
unchanged. -/
theorem mem_avoidLoop (mode : AvoidMode) (valid : List Pt) (bs : List Rect)
    (radius : ℚ) (rng : Rng) :
    ∀ (l : List BoringPoint) (k : ℕ) (q : BoringPoint),
      q ∈ avoidLoop mode valid bs radius rng l k →
      ∃ p ∈ l, q.id = p.id ∧ q.original_geom = p.original_geom ∧
        q.moved = (p.moved || blockedB bs p) ∧ (blockedB bs p = false → q = p)
  | [], _, q, h => by simp [avoidLoop] at h
  | p :: ps, k, q, h => by
      rw [avoidLoop] at h
      revert h
      cases hf : bs.find? (fun b => b.withinPt p.geom) with
      | none =>
          intro h
          have hnb : blockedB bs p = false := by
            unfold blockedB
            cases hB : bs.any (fun b => b.withinPt p.geom) with
            | false => rfl
            | true =>
                rcases List.any_eq_true.mp hB with ⟨b2, hbmem, hbp⟩
                exact absurd hbp (List.find?_eq_none.mp hf b2 hbmem)
          rcases List.mem_cons.mp h with heq | h1
          · subst heq
            exact ⟨q, List.mem_cons_self _ _, rfl, rfl, by simp [hnb], fun _ => rfl⟩
          · rcases mem_avoidLoop mode valid bs radius rng ps k q h1 with ⟨p2, hp2, hrest⟩
            exact ⟨p2, List.mem_cons_of_mem _ hp2, hrest⟩
      | some b =>
          intro h
          have hbl : blockedB bs p = true := by
            have hpb := List.find?_some hf
            unfold blockedB
            exact List.any_eq_true.mpr ⟨b, List.mem_of_find?_eq_some hf, hpb⟩
          rcases List.mem_cons.mp h with heq | h1
          · subst heq
            refine ⟨p, List.mem_cons_self _ _, rfl, rfl, by simp [hbl], ?_⟩
            intro hc
            rw [hbl] at hc
            exact Bool.noConfusion hc
          · rcases mem_avoidLoop mode valid bs radius rng ps _ q h1 with ⟨p2, hp2, hrest⟩
            exact ⟨p2, List.mem_cons_of_mem _ hp2, hrest⟩

/-- C8 (amended).  The claim's iff fails (see the counterexample:
relocation can land exactly on the original location); what holds is:
after `plan_boring` every point has `moved = false` and geometry equal to
`original_geom`; and `avoid_buildings` leaves `original_geom` and
identifiers untouched, sets `moved` to true on exactly the blocked points
it relocates, and returns every non-blocked point entirely unchanged — so
`moved = true` marks exactly the relocated points, whose new geometry may
coincidentally equal the original. -/
theorem moved_flag_invariants :
    (∀ (grid : List GridPoint) (zones : List Zone) (zdqy : Option (List Rect))
        (ps : Params) (out : List BoringPoint),
        plan_boring grid zones zdqy ps = some out →
        ∀ bp ∈ out, bp.moved = false ∧ bp.original_geom = bp.geom) ∧
    (∀ (pts : List BoringPoint) (bs : List Rect) (radius : ℚ)
        (mode : AvoidMode) (rng : Rng),
        ∀ q ∈ avoid_buildings pts bs radius mode rng,
        ∃ p ∈ pts, q.id = p.id ∧ q.original_geom = p.original_geom ∧
          q.moved = (p.moved || blockedB bs p) ∧
          (blockedB bs p = false → q = p)) := by
  constructor
  · intro grid zones zdqy ps out h bp hbp
    rcases plan_boring_sound grid zones zdqy ps out h bp hbp with ⟨g, _, m, _, hcase⟩
    rcases hcase with ⟨rfl, _⟩ | ⟨rfl, _⟩ <;> exact ⟨rfl, rfl⟩
  · intro pts bs radius mode rng q hq
    unfold avoid_buildings at hq
    exact mem_avoidLoop mode (validGeoms pts bs) bs radius rng pts 0 q hq

/-- C8 (witness): the BORING entry of the one-point planning instance is
unmoved with geometry equal to its original, and the relocated copy of
`pt1010` keeps its identifier and original geometry and is marked moved
because it is blocked. -/
theorem moved_flag_invariants_witness :
    (wBp.moved = false ∧ wBp.original_geom = wBp.geom) ∧
    (∃ p ∈ [pt1010], qMoved.id = p.id ∧ qMoved.original_geom = p.original_geom ∧
      qMoved.moved = (p.moved || blockedB [bld5] p) ∧
      (blockedB [bld5] p = false → qMoved = p)) :=
  ⟨moved_flag_invariants.1 [gIn] [zoneZ] none {} wOut
      (by with_unfolding_all decide) wBp (by with_unfolding_all decide),
    moved_flag_invariants.2 [pt1010] [bld5] 20 AvoidMode.uncertainty rngA qMoved
      (by with_unfolding_all decide)⟩

/-- A value occurring in the input list occurs in its first-appearance
deduplication (accumulator form). -/
theorem mem_uniqueFirstAux (a : String) :
    ∀ (l seen : List String), a ∈ l → a ∈ seen ∨ a ∈ uniqueFirstAux seen l
  | [], _, h => absurd h (List.not_mem_nil a)
  | x :: xs, seen, h => by
      rw [uniqueFirstAux]
      rcases List.mem_cons.mp h with rfl | h1
      · by_cases hx : a ∈ seen
        · exact Or.inl hx
        · rw [if_neg hx]
          exact Or.inr (List.mem_cons_self _ _)
      · by_cases hx : x ∈ seen
        · rw [if_pos hx]
          exact mem_uniqueFirstAux a xs seen h1
        · rw [if_neg hx]
          rcases mem_uniqueFirstAux a xs (x :: seen) h1 with hs | hu
          · rcases List.mem_cons.mp hs with rfl | hs2
            · exact Or.inr (List.mem_cons_self _ _)
            · exact Or.inl hs2
          · exact Or.inr (List.mem_cons_of_mem _ hu)

/-- A value occurring in the input list occurs in its first-appearance
deduplication. -/
theorem mem_uniqueFirst (a : String) (l : List String) (h : a ∈ l) :
    a ∈ uniqueFirst l := by
  rcases mem_uniqueFirstAux a l [] h with hs | hu
  · exact absurd hs (List.not_mem_nil a)
  · exact hu

/-- C10 (amended).  Every grid point that lies strictly within some zone
and passes both step-congruence tests is emitted twice: the output
contains two distinct entries with that point's id and geometry, one
BORING with an S-prefixed code and one WBORING with a W-prefixed code. -/
theorem dual_qualifying_in_zone_emitted_twice
    (grid : List GridPoint) (zones : List Zone) (zdqy : Option (List Rect))
    (ps : Params) (g : GridPoint)
    (hg : g ∈ grid)
    (hz : ∃ z ∈ zones, z.area.withinPt g.geom = true)
    (hb : (mkRow zones zdqy ps g).is_boring = true)
    (hw : (mkRow zones zdqy ps g).is_wboring = true) :
    ∀ out, plan_boring grid zones zdqy ps = some out →
      ∃ b ∈ out, ∃ w ∈ out, b ≠ w ∧
        b.id = g.id ∧ w.id = g.id ∧ b.geom = g.geom ∧ w.geom = g.geom ∧
        b.type = BType.BORING ∧ w.type = BType.WBORING ∧
        (∃ m, b.code = "S" ++ pad4 m) ∧ (∃ m, w.code = "W" ++ pad4 m) := by
  intro out hout
  rw [plan_boring_out_eq grid zones zdqy ps out hout]
  rcases hz with ⟨z, hzmem, hzin⟩
  obtain ⟨z0, hfind⟩ : ∃ z0, zones.find? (fun z2 => z2.area.withinPt g.geom) = some z0 := by
    cases hcase : zones.find? (fun z2 => z2.area.withinPt g.geom) with
    | some z0 => exact ⟨z0, rfl⟩
    | none => exact absurd hzin (List.find?_eq_none.mp hcase z hzmem)
  have hdcfq : (mkRow zones zdqy ps g).dcfq = some z0.name := by
    simp [mkRow, zoneOf, hfind]
  have hrmem : mkRow zones zdqy ps g ∈ grid.map (mkRow zones zdqy ps) :=
    List.mem_map.mpr ⟨g, hg, rfl⟩
  have hnameu : z0.name ∈ uniqueFirst
      ((grid.map (mkRow zones zdqy ps)).filterMap (fun r => r.dcfq)) :=
    mem_uniqueFirst _ _
      (List.mem_filterMap.mpr ⟨mkRow zones zdqy ps g, hrmem, hdcfq⟩)
  have hbf : mkRow zones zdqy ps g ∈ (grid.map (mkRow zones zdqy ps)).filter
      (fun r => r.dcfq == some z0.name && r.is_boring) :=
    List.mem_filter.mpr ⟨hrmem, by simp [hdcfq, hb]⟩
  have hwf : mkRow zones zdqy ps g ∈ (grid.map (mkRow zones zdqy ps)).filter
      (fun r => r.dcfq == some z0.name && r.is_wboring) :=
    List.mem_filter.mpr ⟨hrmem, by simp [hdcfq, hw]⟩
  rcases assignCodes_mem "S" BType.BORING 1 _ _ hbf with ⟨m1, hm1⟩
  rcases assignCodes_mem "W" BType.WBORING 1 _ _ hwf with ⟨m2, hm2⟩
  refine ⟨mkBP (mkRow zones zdqy ps g) BType.BORING ("S" ++ pad4 m1),
    List.mem_flatMap.mpr ⟨z0.name, hnameu, List.mem_append_left _ hm1⟩,
    mkBP (mkRow zones zdqy ps g) BType.WBORING ("W" ++ pad4 m2),
    List.mem_flatMap.mpr ⟨z0.name, hnameu, List.mem_append_right _ hm2⟩,
    ?_, rfl, rfl, rfl, rfl, rfl, rfl, ⟨m1, rfl⟩, ⟨m2, rfl⟩⟩
  intro he
  have ht := congrArg BoringPoint.type he
  simp [mkBP] at ht

/-- C10 (witness): in the one-point instance, `gIn` is inside `zoneZ`,
passes both tests, and is emitted as both `S0001` and `W0001`. -/
theorem dual_qualifying_witness :
    ∃ b ∈ wOut, ∃ w ∈ wOut, b ≠ w ∧
      b.id = gIn.id ∧ w.id = gIn.id ∧ b.geom = gIn.geom ∧ w.geom = gIn.geom ∧
      b.type = BType.BORING ∧ w.type = BType.WBORING ∧
      (∃ m, b.code = "S" ++ pad4 m) ∧ (∃ m, w.code = "W" ++ pad4 m) :=
  dual_qualifying_in_zone_emitted_twice [gIn] [zoneZ] none {} gIn
    (by with_unfolding_all decide)
    ⟨zoneZ, (by with_unfolding_all decide), (by with_unfolding_all decide)⟩
    (by with_unfolding_all decide) (by with_unfolding_all decide) wOut
    (by with_unfolding_all decide)

/-- C10 (counterexample).  The claim says every grid point passing both
step-congruence tests yields two output entries; but a point outside all
zones is dropped even when both tests pass: `gOut50` (row = col = 0, both
tests pass) lies outside `zoneZ` and the output is empty. -/
theorem dual_point_outside_zone_dropped :
    (mkRow [zoneZ] none {} gOut50).is_boring = true ∧
    (mkRow [zoneZ] none {} gOut50).is_wboring = true ∧
    plan_boring [gOut50] [zoneZ] none {} = some [] := by
  with_unfolding_all decide

end Boring
